import Mathlib

/-!
Shallow embedding of the tidymoney rule-matching and transaction-normalization
engine, together with theorems settling the frozen claims about it.

Source layout embedded here:
* `src/rules/date_filter.rs` — the day-of-month / day-of-year window filter.
* `src/rules/payees.rs` — the current `PayeeRules` matcher and its
  string-shorthand constructor.
* `src/rules/category_and_memo.rs` — the current `CategoryAndMemoRules` matcher.
* `src/rules.rs` — the monolithic rule store (`RuleFileData`) with the
  per-table update passes and duplicate-rule validation.
* `src/lib.rs` — `NormalizedBankData`, `skipme`, `interpret_dollar_amount`.
* `src/process.rs` — `drop_uneeded`.
* `src/timestamps.rs` — `TimestampKeeper`.

Rust machine values are embedded as follows: `rust_decimal::Decimal` as `ℚ`
(with the explicit `Decimal::MAX`/`Decimal::MIN` constants), `u32`/`i32`
calendar components as `Nat`/`Int`, `chrono::NaiveDate` as a year/month/day
record ordered lexicographically (chrono orders by (year, ordinal), which is
the same order on calendar dates), `HashMap` iteration as an association list
in a fixed iteration order, and compiled regexes as their source string paired
with an opaque-to-equality match function (the crate's `PartialEq` for
`EqRegex` compares only the source string).
-/

namespace Tidymoney

/-- Calendar date, embedding `chrono::NaiveDate` (year, month, day). -/
structure NDate where
  year : Int
  month : Nat
  day : Nat
deriving DecidableEq, Repr

/-- Gregorian leap-year test, embedding `chrono`'s `NaiveDate::leap_year`
(as used via `NaiveDate::from_yo_opt(date.year(), 1).unwrap().leap_year()`). -/
def isLeapYear (y : Int) : Bool :=
  y % 4 == 0 && (y % 100 != 0 || y % 400 == 0)

/-- Strict calendar order on dates (chrono's `Ord` for `NaiveDate`:
by (year, ordinal), i.e. lexicographic year/month/day). -/
def NDate.ltB (a b : NDate) : Bool :=
  if a.year = b.year then
    if a.month = b.month then decide (a.day < b.day)
    else decide (a.month < b.month)
  else decide (a.year < b.year)

/-- `Decimal::MAX` of `rust_decimal` (mantissa 2^96 - 1, scale 0). -/
def DecimalMAX : ℚ := 79228162514264337593543950335

/-- `Decimal::MIN` of `rust_decimal`. -/
def DecimalMIN : ℚ := -79228162514264337593543950335

/-- Rust's `Option::is_some_and`. -/
def isSomeAnd : Option α → (α → Bool) → Bool
  | some x, p => p x
  | none, _ => false

/-- `EqRegex` (src/rules/eqregex.rs and src/eqregex.rs): a compiled regex
carried together with its source text. The match function stands for the
compiled `regex::Regex`; equality and hashing use only `source`, exactly as
the crate's `PartialEq`/`Hash` impls compare `as_str()`. -/
structure EqRegex where
  source : String
  matcher : String → Bool

/-- `PartialEq for EqRegex` (src/rules/eqregex.rs lines 17-23):
`self.0.as_str() == other.0.as_str()`. -/
def EqRegex.beq (a b : EqRegex) : Bool :=
  a.source == b.source

/-- `Regex::is_match` reached through `EqRegex`'s `Deref`. -/
def EqRegex.is_match (r : EqRegex) (s : String) : Bool :=
  r.matcher s

/-! ## src/rules/date_filter.rs -/

/-- `last_date_in_month_raw` (src/rules/date_filter.rs lines 94-103). -/
def last_date_in_month_raw (month : Nat) : Nat :=
  match month with
  | 2 => 28
  | 4 => 30
  | 6 => 30
  | 9 => 30
  | 11 => 30
  | _ => 31

/-- `last_date_in_month` (src/rules/date_filter.rs lines 83-91). -/
def last_date_in_month (date : NDate) : Nat :=
  let month := date.month
  let is_leap := isLeapYear date.year
  if month == 2 && is_leap then 29 else last_date_in_month_raw month

/-- `date_is_ouside_range_in_month` (src/rules/date_filter.rs lines 18-51). -/
def date_is_ouside_range_in_month (date : NDate)
    (month_filters : Option Nat × Option Nat) : Bool :=
  let date_in_month := date.day
  let last_month_date := last_date_in_month date
  match month_filters with
  | (some low, some high) =>
    let low := min low last_month_date
    let high := min high last_month_date
    if high < low then
      !(decide (date_in_month ≤ high) || decide (date_in_month ≥ low))
    else
      !(decide (date_in_month ≥ low) && decide (date_in_month ≤ high))
  | (some low, none) => decide (date_in_month < min low last_month_date)
  | (none, some high) => decide (date_in_month > min high last_month_date)
  | (none, none) => false

/-- Lexicographic strict order on `(month, day)` pairs (Rust's `Ord` on
`(u32, u32)`). -/
def pairLt (a b : Nat × Nat) : Bool :=
  decide (a.1 < b.1) || (a.1 == b.1 && decide (a.2 < b.2))

/-- Lexicographic `≤` on `(month, day)` pairs. -/
def pairLe (a b : Nat × Nat) : Bool :=
  pairLt a b || a == b

/-- `date_is_ouside_range_in_year` (src/rules/date_filter.rs lines 54-80). -/
def date_is_ouside_range_in_year (date : NDate)
    (year_filters : Option (Nat × Nat) × Option (Nat × Nat)) : Bool :=
  let date_in_year := (date.month, date.day)
  match year_filters with
  | (some low, some high) =>
    if pairLt high low then
      !(pairLe date_in_year high || pairLe low date_in_year)
    else
      !(pairLe low date_in_year && pairLe date_in_year high)
  | (some low, none) => pairLt date_in_year low
  | (none, some high) => pairLt high date_in_year
  | (none, none) => false

/-- `date_is_outside_range` (src/rules/date_filter.rs lines 12-15). -/
def date_is_outside_range (date : NDate)
    (month : Option Nat × Option Nat)
    (year : Option (Nat × Nat) × Option (Nat × Nat)) : Bool :=
  date_is_ouside_range_in_month date month || date_is_ouside_range_in_year date year

/-! ## src/lib.rs -/

/-- `NormalizedBankData` (src/lib.rs lines 25-36). `check` is the `Check#`
column (`Option<u32>`). -/
structure NormalizedBankData where
  date : NDate
  payee : String
  category : Option String
  memo : Option String
  amount : ℚ
  check : Option Nat
  orig_payee : String

/-- `Decimal::from_str_exact` of `rust_decimal`, as used by
`interpret_dollar_amount`: optional sign, then digits with at most one
decimal point (underscores permitted between digits), at least one digit,
scale at most 28 and mantissa below 2^96. Anything else fails to parse. -/
def parseDecimalCore : List Char → Nat → Nat → Bool → Bool → Option (Nat × Nat)
  | [], mantissa, scale, sawDigit, afterPoint =>
    if sawDigit then some (mantissa, if afterPoint then scale else 0) else none
  | c :: rest, mantissa, scale, sawDigit, afterPoint =>
    if c.isDigit then
      parseDecimalCore rest (mantissa * 10 + (c.toNat - '0'.toNat))
        (if afterPoint then scale + 1 else scale) true afterPoint
    else if c = '_' then
      if sawDigit then parseDecimalCore rest mantissa scale sawDigit afterPoint else none
    else if c = '.' then
      if afterPoint then none else parseDecimalCore rest mantissa scale sawDigit true
    else
      none

/-- String-level entry point of the decimal parser: handles the optional
leading sign and the overflow/scale limits of `from_str_exact`. -/
def parseDecimal (s : String) : Option ℚ :=
  let chars := s.data
  let (neg, rest) :=
    match chars with
    | '-' :: rest => (true, rest)
    | '+' :: rest => (false, rest)
    | rest => (false, rest)
  match parseDecimalCore rest 0 0 false false with
  | none => none
  | some (mantissa, scale) =>
    if mantissa < 2 ^ 96 ∧ scale ≤ 28 then
      let q : ℚ := mkRat mantissa (10 ^ scale)
      some (if neg then -q else q)
    else
      none

/-- `interpret_dollar_amount` (src/lib.rs lines 95-106): parse the amount,
defaulting to zero when it cannot be converted, then negate if requested. -/
def interpret_dollar_amount (amount : String) (negate : Bool) : ℚ :=
  let amt := (parseDecimal amount).getD 0
  if negate then -amt else amt

/-- Rust's `str::parse::<u32>` as used for the `Check#` column: optional
leading `+`, at least one digit, value below 2^32. -/
def parseU32 : String → Option Nat := fun s =>
  let chars := match s.data with | '+' :: rest => rest | rest => rest
  if chars ≠ [] ∧ chars.all Char.isDigit then
    let v := chars.foldl (fun acc c => acc * 10 + (c.toNat - '0'.toNat)) 0
    if v < 2 ^ 32 then some v else none
  else none

/-- Days in a month of a given year (used by the `%Y-%m-%d` date parser
below to mirror chrono's rejection of non-existent dates). -/
def daysInMonth (y : Int) (m : Nat) : Nat :=
  if m == 2 && isLeapYear y then 29 else last_date_in_month_raw m

/-- Split a character list at every occurrence of a separator. -/
def splitOnChar (sep : Char) : List Char → List (List Char)
  | [] => [[]]
  | c :: rest =>
    let groups := splitOnChar sep rest
    if c = sep then [] :: groups
    else
      match groups with
      | g :: gs => (c :: g) :: gs
      | [] => [[c]]

/-- `NaiveDate::parse_from_str` with the default format `DATE_FORMAT`
(`"%Y-%m-%d"`, src/timestamps.rs line 8): the embedding fixes the format to
this default. Accepts `year-month-day` with numeric components and rejects
non-existent calendar dates, as chrono does. -/
def parse_date_ymd (s : String) : Option NDate :=
  match splitOnChar '-' s.data with
  | [ys, ms, ds] =>
    if ys ≠ [] ∧ ys.all Char.isDigit ∧ ms ≠ [] ∧ ms.all Char.isDigit ∧
        ds ≠ [] ∧ ds.all Char.isDigit then
      let y : Int := (ys.foldl (fun acc c => acc * 10 + (c.toNat - '0'.toNat)) 0 : Nat)
      let m := ms.foldl (fun acc c => acc * 10 + (c.toNat - '0'.toNat)) 0
      let d := ds.foldl (fun acc c => acc * 10 + (c.toNat - '0'.toNat)) 0
      if 1 ≤ m ∧ m ≤ 12 ∧ 1 ≤ d ∧ d ≤ daysInMonth y m then
        some ⟨y, m, d⟩
      else none
    else none
  | _ => none

/-- Lookup in the raw row, embedding `HashMap::get` on the column map. -/
def rowGet (mapping : List (String × String)) (key : String) : Option String :=
  (mapping.find? (fun p => p.1 == key)).map (·.2)

/-- `NormalizedBankData::from_raw_data` (src/lib.rs lines 45-83), with the
`?`-early-returns written as matches. The date format is fixed to the
default `"%Y-%m-%d"` (see `parse_date_ymd`). -/
def NormalizedBankData.from_raw_data (mapping : List (String × String))
    (negate : Bool) (label : String) : Except String NormalizedBankData :=
  match rowGet mapping "Payee" with
  | none => .error ("The account '" ++ label ++ "' is missing the Payee column")
  | some payee_str =>
    match rowGet mapping "Date" with
    | none => .error ("The account '" ++ label ++ "' is missing the Date column")
    | some date_str =>
      match rowGet mapping "Amount" with
      | none => .error ("The account '" ++ label ++ "' is missing the Amount column")
      | some amount_str =>
        match parse_date_ymd date_str with
        | none =>
          .error ("Cannot parse the date " ++ date_str ++
            " with the format string %Y-%m-%d")
        | some date =>
          .ok
            { date := date
              payee := payee_str
              category := rowGet mapping "Category"
              memo := rowGet mapping "Memo"
              amount := interpret_dollar_amount amount_str negate
              check := (rowGet mapping "Check#").bind parseU32
              orig_payee := payee_str }

/-- `NormalizedBankData::skipme` (src/lib.rs lines 86-88). -/
def NormalizedBankData.skipme (t : NormalizedBankData)
    (start_date end_date : NDate) : Bool :=
  t.amount == 0 || NDate.ltB t.date start_date || NDate.ltB end_date t.date

/-! ## src/process.rs -/

/-- `TransactionProcessor::drop_uneeded` (src/process.rs lines 52-55):
`retain(|trans| !trans.skipme(start_date, end_date))` on the batch. -/
def drop_uneeded (transactions : List NormalizedBankData)
    (start_date end_date : NDate) : List NormalizedBankData :=
  transactions.filter (fun trans => !trans.skipme start_date end_date)

/-! ## src/timestamps.rs -/

/-- `TimestampKeeper` (src/timestamps.rs lines 53-56): the `dates` HashMap
as an association list with unique keys. -/
structure TimestampKeeper where
  dates : List (String × NDate)

/-- `TimestampKeeper::early` (src/timestamps.rs lines 104-106). -/
def TimestampKeeper.early : NDate := ⟨2000, 1, 1⟩

/-- `HashMap` lookup on the keeper's `dates`. -/
def datesGet (dates : List (String × NDate)) (account : String) : Option NDate :=
  (dates.find? (fun p => p.1 == account)).map (·.2)

/-- `HashMap::insert` on the keeper's `dates`: replace the binding in place
when present, insert otherwise. -/
def datesInsert (dates : List (String × NDate)) (account : String)
    (date : NDate) : List (String × NDate) :=
  match dates with
  | [] => [(account, date)]
  | (k, v) :: rest =>
    if k == account then (k, date) :: rest
    else (k, v) :: datesInsert rest account date

/-- `TimestampKeeper::update_date` (src/timestamps.rs lines 84-92): read (or
default-insert) the current date for the account, then overwrite it only if
the candidate is strictly later. -/
def TimestampKeeper.update_date (keeper : TimestampKeeper) (account : String)
    (date : NDate) : TimestampKeeper :=
  let this_date := (datesGet keeper.dates account).getD TimestampKeeper.early
  let dates := datesInsert keeper.dates account this_date
  if NDate.ltB this_date date then ⟨datesInsert dates account date⟩ else ⟨dates⟩

/-- `TimestampKeeper::get_date` (src/timestamps.rs lines 96-101). -/
def TimestampKeeper.get_date (keeper : TimestampKeeper) (account : String) : NDate :=
  (datesGet keeper.dates account).getD TimestampKeeper.early

/-! ## src/rules/payees.rs -/

/-- `PayeeRules` (src/rules/payees.rs lines 17-35). -/
structure PayeeRules where
  pattern : EqRegex
  min_amount : Option ℚ
  max_amount : Option ℚ
  amount : Option ℚ
  min_date_in_month : Option Nat
  max_date_in_month : Option Nat
  min_date_in_year : Option (Nat × Nat)
  max_date_in_year : Option (Nat × Nat)

/-- `PayeeRules::transaction_matches` (src/rules/payees.rs lines 69-98). -/
def PayeeRules.transaction_matches (rule : PayeeRules)
    (transaction : NormalizedBankData) : Bool :=
  let min_amt := |rule.min_amount.getD 0|
  let max_amt := |rule.max_amount.getD DecimalMAX|
  let amt := |transaction.amount|
  if !(decide (amt ≥ min_amt) && decide (amt ≤ max_amt)) then false
  else if isSomeAnd rule.amount (fun x => decide (|x| ≠ amt)) then false
  else if !(rule.pattern.is_match transaction.orig_payee) then false
  else if date_is_outside_range transaction.date
      (rule.min_date_in_month, rule.max_date_in_month)
      (rule.min_date_in_year, rule.max_date_in_year) then false
  else true

/-- Outcome of a Rust call that either returns a value or aborts the process
with a panic message. -/
inductive PanicOr (α : Type) where
  | panicked (msg : String)
  | ok (value : α)
deriving DecidableEq, Repr

/-- `FromStr for PayeeRules` (src/rules/payees.rs lines 112-129). The result
of `Regex::new(s)` is passed in as `compiled` (`some` matcher on success,
`none` on a compile error); on `none` the function panics via
`unwrap_or_else(|_| panic!(..))`. The `Err` type is `void::Void`, so no
error value can ever be returned. -/
def PayeeRules.from_str (s : String) (compiled : Option (String → Bool)) :
    PanicOr PayeeRules :=
  match compiled with
  | some matcher =>
    .ok
      { pattern := ⟨s, matcher⟩
        min_amount := none
        max_amount := none
        amount := none
        min_date_in_month := none
        max_date_in_month := none
        min_date_in_year := none
        max_date_in_year := none }
  | none => .panicked ("Could not parse the string " ++ s ++ " as a regular expression")

/-- `deserialize_regex` (src/rules/eqregex.rs lines 40-47), the path used for
struct-form `Pattern` fields: a failed `Regex::new` becomes an ordinary
deserialization error (`map_err(serde::de::Error::custom)`), not a panic. -/
def deserialize_regex (s : String) (compiled : Option (String → Bool)) :
    Except String EqRegex :=
  match compiled with
  | some matcher => .ok ⟨s, matcher⟩
  | none => .error ("regex parse error: " ++ s)

/-! ## src/rules/category_and_memo.rs -/

/-- `CategoryAndMemoRules` (src/rules/category_and_memo.rs lines 17-34). -/
structure CategoryAndMemoRules where
  payee : Option String
  category : Option String
  amount : Option ℚ
  min_amount : Option ℚ
  max_amount : Option ℚ
  income_ok : Bool
  orig_payee : Option EqRegex

/-- `true_value` (src/rules/category_and_memo.rs lines 37-39), the serde
default for `IncomeOK`. -/
def true_value : Bool := true

/-- The deserialized view of a `CategoryAndMemoRules` table entry before
serde defaults are applied: `IncomeOK` may be absent
(`#[serde(default = "true_value", rename = "IncomeOK")]`, lines 29-30). -/
structure CategoryAndMemoRulesRaw where
  payee : Option String
  category : Option String
  amount : Option ℚ
  min_amount : Option ℚ
  max_amount : Option ℚ
  income_ok : Option Bool
  orig_payee : Option EqRegex

/-- Apply the serde field defaults: an absent `IncomeOK` becomes
`true_value`. -/
def CategoryAndMemoRulesRaw.applyDefaults (raw : CategoryAndMemoRulesRaw) :
    CategoryAndMemoRules :=
  { payee := raw.payee
    category := raw.category
    amount := raw.amount
    min_amount := raw.min_amount
    max_amount := raw.max_amount
    income_ok := raw.income_ok.getD true_value
    orig_payee := raw.orig_payee }

/-- `CategoryAndMemoRules::transaction_matches`
(src/rules/category_and_memo.rs lines 84-134). -/
def CategoryAndMemoRules.transaction_matches (rule : CategoryAndMemoRules)
    (transaction : NormalizedBankData) : Bool :=
  if isSomeAnd rule.payee (fun p => p != transaction.payee) then false
  else if isSomeAnd rule.orig_payee
      (fun op => !op.is_match transaction.orig_payee) then false
  else if isSomeAnd rule.category
      (fun cc => transaction.category.isNone ||
        isSomeAnd transaction.category (fun tc => tc != cc)) then false
  else if !rule.income_ok && decide (transaction.amount > 0) then false
  else
    let min_amt := |rule.min_amount.getD 0|
    let max_amt := |rule.max_amount.getD DecimalMAX|
    let amt := |transaction.amount|
    if !(decide (amt ≥ min_amt) && decide (amt ≤ max_amt)) then false
    else if isSomeAnd rule.amount (fun x => decide (|x| ≠ amt)) then false
    else true

/-! ## src/rules.rs (the monolithic rule store)

The `O` suffix marks the types of src/rules.rs, which differ from the ones in
the src/rules/ submodules (no date-filter fields on payee rules, and older
matcher bodies). The claims about `update_payee`/`update_category`/
`update_memo` and `validate` cite this file, so its definitions are embedded
verbatim, including the places where its matcher bodies differ from the
submodule versions. -/

/-- `PayeeRules` of src/rules.rs (lines 163-175). -/
structure PayeeRulesO where
  pattern : EqRegex
  min_amount : Option ℚ
  max_amount : Option ℚ
  amount : Option ℚ

/-- The derived `PartialEq`/`Eq` of `PayeeRules` in src/rules.rs: field-wise
equality, with `EqRegex` compared by its source text. -/
def PayeeRulesO.beq (a b : PayeeRulesO) : Bool :=
  EqRegex.beq a.pattern b.pattern
    && a.min_amount == b.min_amount
    && a.max_amount == b.max_amount
    && a.amount == b.amount

/-- `PayeeRules::transaction_matches` of src/rules.rs (lines 178-197). Note
that this version reads `self.min_amount` for both bounds and compares the
signed amount, exactly as written in that file. -/
def PayeeRulesO.transaction_matches (rule : PayeeRulesO)
    (transaction : NormalizedBankData) : Bool :=
  let min_amt := rule.min_amount.getD DecimalMIN
  let max_amt := rule.min_amount.getD DecimalMAX
  if !(decide (transaction.amount ≥ min_amt) && decide (transaction.amount ≤ max_amt)) then
    false
  else if isSomeAnd rule.amount (fun x => decide (x ≠ transaction.amount)) then false
  else if !(rule.pattern.is_match transaction.orig_payee) then false
  else true

/-- `CategoryAndMemoRules` of src/rules.rs (lines 219-236). -/
structure CategoryAndMemoRulesO where
  payee : Option String
  category : Option String
  amount : Option ℚ
  min_amount : Option ℚ
  max_amount : Option ℚ
  income_ok : Bool
  orig_payee : Option EqRegex

/-- `CategoryAndMemoRules::transaction_matches` of src/rules.rs
(lines 248-283), embedded with that file's condition polarity. -/
def CategoryAndMemoRulesO.transaction_matches (rule : CategoryAndMemoRulesO)
    (transaction : NormalizedBankData) : Bool :=
  if isSomeAnd rule.payee (fun p => p == transaction.payee) then false
  else if isSomeAnd rule.orig_payee
      (fun op => !op.is_match transaction.orig_payee) then false
  else if isSomeAnd rule.category
      (fun cc => isSomeAnd transaction.category (fun tc => tc == cc)) then false
  else
    let min_amt := rule.min_amount.getD DecimalMIN
    let max_amt := rule.min_amount.getD DecimalMAX
    if !(decide (transaction.amount ≥ min_amt) && decide (transaction.amount ≤ max_amt)) then
      false
    else if isSomeAnd rule.amount (fun x => decide (x ≠ transaction.amount)) then false
    else true

/-- `RuleFileData` (src/rules.rs lines 17-31): the three rule tables. The
Rust `HashMap`s are embedded as association lists whose list order stands
for the map's iteration order; the `mappings` and `paths` fields are not
modelled (no claim depends on them, and `paths` validation is filesystem
I/O, injected as a parameter into `validate` below). -/
structure RuleFileDataO where
  payees : List (String × List PayeeRulesO)
  categories : Option (List (String × List CategoryAndMemoRulesO))
  memos : Option (List (String × List CategoryAndMemoRulesO))

/-- Inner loop of `update_payee` (src/rules.rs lines 61-66): try this
payee's candidates in order; the first match sets the field and breaks out
of the candidate loop. -/
def updatePayeeCandidates (payee : String) (candidates : List PayeeRulesO)
    (transaction : NormalizedBankData) : NormalizedBankData :=
  match candidates with
  | [] => transaction
  | candidate :: rest =>
    if candidate.transaction_matches transaction then
      { transaction with payee := payee }
    else
      updatePayeeCandidates payee rest transaction

/-- Outer loop of `update_payee` over the table's iteration order. -/
def updatePayeeTable (payees : List (String × List PayeeRulesO))
    (transaction : NormalizedBankData) : NormalizedBankData :=
  match payees with
  | [] => transaction
  | (payee, candidates) :: rest =>
    updatePayeeTable rest (updatePayeeCandidates payee candidates transaction)

/-- `RuleFileData::update_payee` (src/rules.rs lines 59-68). -/
def RuleFileDataO.update_payee (rules : RuleFileDataO)
    (transaction : NormalizedBankData) : NormalizedBankData :=
  updatePayeeTable rules.payees transaction

/-- Inner loop of `update_category` (src/rules.rs lines 74-79). -/
def updateCategoryCandidates (category : String)
    (candidates : List CategoryAndMemoRulesO)
    (transaction : NormalizedBankData) : NormalizedBankData :=
  match candidates with
  | [] => transaction
  | candidate :: rest =>
    if candidate.transaction_matches transaction then
      { transaction with category := some category }
    else
      updateCategoryCandidates category rest transaction

/-- Outer loop of `update_category` over the table's iteration order. -/
def updateCategoryTable (categories : List (String × List CategoryAndMemoRulesO))
    (transaction : NormalizedBankData) : NormalizedBankData :=
  match categories with
  | [] => transaction
  | (category, candidates) :: rest =>
    updateCategoryTable rest (updateCategoryCandidates category candidates transaction)

/-- `RuleFileData::update_category` (src/rules.rs lines 71-82). -/
def RuleFileDataO.update_category (rules : RuleFileDataO)
    (transaction : NormalizedBankData) : NormalizedBankData :=
  match rules.categories with
  | some cat => updateCategoryTable cat transaction
  | none => transaction

/-- Inner loop of `update_memo` (src/rules.rs lines 87-93). -/
def updateMemoCandidates (memo : String)
    (candidates : List CategoryAndMemoRulesO)
    (transaction : NormalizedBankData) : NormalizedBankData :=
  match candidates with
  | [] => transaction
  | candidate :: rest =>
    if candidate.transaction_matches transaction then
      { transaction with memo := some memo }
    else
      updateMemoCandidates memo rest transaction

/-- Outer loop of `update_memo` over the table's iteration order. -/
def updateMemoTable (memos : List (String × List CategoryAndMemoRulesO))
    (transaction : NormalizedBankData) : NormalizedBankData :=
  match memos with
  | [] => transaction
  | (memo, candidates) :: rest =>
    updateMemoTable rest (updateMemoCandidates memo candidates transaction)

/-- `RuleFileData::update_memo` (src/rules.rs lines 85-96). -/
def RuleFileDataO.update_memo (rules : RuleFileDataO)
    (transaction : NormalizedBankData) : NormalizedBankData :=
  match rules.memos with
  | some memos => updateMemoTable memos transaction
  | none => transaction

/-- Rust's `Ord` on `String`: lexicographic over the UTF-8 bytes, which is
the same order as lexicographic over the code points, compared here on the
character lists. -/
def charListLt : List Char → List Char → Bool
  | [], [] => false
  | [], _ :: _ => true
  | _ :: _, [] => false
  | a :: as, b :: bs =>
    if a.toNat < b.toNat then true
    else if b.toNat < a.toNat then false
    else charListLt as bs

/-- Rust's `<` on `String` values (byte-lexicographic). -/
def stringLt (a b : String) : Bool :=
  charListLt a.data b.data

/-- The duplicate error message of `validate` (src/rules.rs lines 114-117),
with `{:#?}` on a `String` rendering it in double quotes. -/
def dupMsg (first second : String) : String :=
  "The payees \"" ++ first ++ "\" and \"" ++ second ++
    "\" both implement identical rules."

/-- Lookup in the `check: HashMap<&PayeeRules, &String>` of `validate`,
keyed by the derived `PartialEq` of `PayeeRules`. -/
def checkLookup (check : List (PayeeRulesO × String)) (rule : PayeeRulesO) :
    Option String :=
  (check.find? (fun p => PayeeRulesO.beq p.1 rule)).map (·.2)

/-- The uniqueness loop of `validate` (src/rules.rs lines 102-121), running
over the table's (name, rule) pairs in iteration order with the accumulated
`check` map: a rule already present under some (possibly equal) name stops
validation with the two names ordered lexicographically. -/
def validatePayeePairs : List (String × PayeeRulesO) →
    List (PayeeRulesO × String) → Except String Unit
  | [], _ => .ok ()
  | (payee, rule) :: rest, check =>
    match checkLookup check rule with
    | some other =>
      if stringLt other payee then .error (dupMsg other payee)
      else .error (dupMsg payee other)
    | none => validatePayeePairs rest ((rule, payee) :: check)

/-- The table's (name, rule) pairs in iteration order, as visited by the
nested loops of `validate`. -/
def payeePairs (payees : List (String × List PayeeRulesO)) :
    List (String × PayeeRulesO) :=
  payees.flatMap (fun p => p.2.map (fun rule => (p.1, rule)))

/-- The `check_at_least_one` test of src/rules.rs (lines 239-246). -/
def CategoryAndMemoRulesO.check_at_least_one (rule : CategoryAndMemoRulesO) : Bool :=
  rule.payee.isSome || rule.category.isSome || rule.min_amount.isSome
    || rule.max_amount.isSome || rule.amount.isSome || rule.orig_payee.isSome

/-- The category/memo completeness loop of `validate`
(src/rules.rs lines 124-147). -/
def validateCatMemoTable (kind : String)
    (table : Option (List (String × List CategoryAndMemoRulesO))) :
    Except String Unit :=
  match table with
  | none => .ok ()
  | some entries =>
    match entries.find? (fun p => p.2.any (fun r => !r.check_at_least_one)) with
    | some (name, _) =>
      .error ("The " ++ kind ++ " \"" ++ name ++ "\" must implement a rule.")
    | none => .ok ()

/-- `RuleFileData::validate` (src/rules.rs lines 99-150), with the
`?`-early-returns written as matches. The result of `self.paths.validate()`
— filesystem I/O — is injected as `pathsResult`. -/
def RuleFileDataO.validate (rules : RuleFileDataO)
    (pathsResult : Except String Unit) : Except String Unit :=
  match pathsResult with
  | .error e => .error e
  | .ok () =>
    match validatePayeePairs (payeePairs rules.payees) [] with
    | .error e => .error e
    | .ok () =>
      match validateCatMemoTable "category" rules.categories with
      | .error e => .error e
      | .ok () => validateCatMemoTable "memo" rules.memos

/-! ## Spec-side definitions and general helper lemmas -/

/-- The last day of a month as the specification words it: 29 for February
in a leap year, 28 otherwise, 30 or 31 per month. -/
def lastDayOfMonthSpec (d : NDate) : Nat :=
  if d.month = 2 then (if isLeapYear d.year then 29 else 28)
  else if d.month = 4 ∨ d.month = 6 ∨ d.month = 9 ∨ d.month = 11 then 30
  else 31

/-- The day-of-month window test as the specification words it: clamp both
bounds to the last day of the date's month; if the clamped high is below the
clamped low the window wraps and the date is outside exactly when
`!(day <= high || day >= low)`; otherwise it is outside exactly when
`!(low <= day && day <= high)`. -/
def monthWindowOutsideSpec (d : NDate) (low high : Nat) : Bool :=
  let lastDay := lastDayOfMonthSpec d
  let lo := min low lastDay
  let hi := min high lastDay
  if hi < lo then !(decide (d.day ≤ hi) || decide (d.day ≥ lo))
  else !(decide (lo ≤ d.day) && decide (d.day ≤ hi))

theorem lastDayOfMonthSpec_eq (d : NDate) :
    lastDayOfMonthSpec d = last_date_in_month d := by
  rcases d with ⟨y, m, day⟩
  unfold lastDayOfMonthSpec last_date_in_month last_date_in_month_raw
  rcases m with _ | _ | _ | _ | _ | _ | _ | _ | _ | _ | _ | _ | m <;>
    cases h : isLeapYear y <;> simp [h]

/-- Calendar `≤` on dates, written out by components. -/
def NDate.leSpec (a b : NDate) : Prop :=
  a.year < b.year ∨ (a.year = b.year ∧
    (a.month < b.month ∨ (a.month = b.month ∧ a.day ≤ b.day)))

instance (a b : NDate) : Decidable (NDate.leSpec a b) := by
  unfold NDate.leSpec
  exact inferInstance

theorem ltB_iff (a b : NDate) :
    NDate.ltB a b = true ↔
      (a.year < b.year ∨ (a.year = b.year ∧
        (a.month < b.month ∨ (a.month = b.month ∧ a.day < b.day)))) := by
  unfold NDate.ltB
  split_ifs <;> simp_all

theorem ltB_false_iff (a b : NDate) :
    (NDate.ltB b a = false) ↔ NDate.leSpec a b := by
  rw [← Bool.not_eq_true, ltB_iff]
  unfold NDate.leSpec
  omega

/-- Turn a characterization of a boolean into an equation with `decide`. -/
theorem bool_eq_decide (b : Bool) (P : Prop) [Decidable P] (h : b = true ↔ P) :
    b = decide P := by
  by_cases hp : P
  · simp [hp, h.mpr hp]
  · cases hb : b
    · simp [hp]
    · exact absurd (h.mp hb) hp

/-! ## Claim C3 -/

/-- Claim C3: for every date and every pair of present day-of-month bounds,
after both bounds are clamped to the last day of the date's month (29 for
February in a leap year, 28 otherwise, 30 or 31 per month), the day-of-month
filter reports the date outside the window exactly when: if clamped high <
clamped low, not (day <= high or day >= low); otherwise, not
(low <= day <= high). -/
theorem C3_month_window (d : NDate) (low high : Nat) :
    date_is_ouside_range_in_month d (some low, some high) =
      monthWindowOutsideSpec d low high := by
  unfold date_is_ouside_range_in_month monthWindowOutsideSpec
  rw [lastDayOfMonthSpec_eq]

/-! ## Claim C7 -/

/-- Claim C7 counterexample: with equal bounds low = high = 31 and the date
2024-04-30, the filter returns false although the day of month (30) is not
equal to the bound — the bound is first clamped to April's last day. -/
theorem C7_counterexample :
    date_is_outside_range ⟨2024, 4, 30⟩ (some 31, some 31) (none, none) = false ∧
      (⟨2024, 4, 30⟩ : NDate).day ≠ 31 := by
  constructor
  · rfl
  · decide

/-- Claim C7 (amended): for all dates and equal present day-of-month bounds
low = high (and no year bounds), `date_is_outside_range` returns false only
when the date's day-of-month equals the bound clamped to the last day of the
date's month. -/
theorem C7_amended (d : NDate) (b : Nat)
    (h : date_is_outside_range d (some b, some b) (none, none) = false) :
    d.day = min b (last_date_in_month d) := by
  unfold date_is_outside_range date_is_ouside_range_in_month
    date_is_ouside_range_in_year at h
  simp only [Bool.or_eq_false_iff] at h
  rcases h with ⟨h, -⟩
  by_cases hlt : min b (last_date_in_month d) < min b (last_date_in_month d)
  · omega
  · simp only [hlt, if_false, Bool.not_eq_false', Bool.and_eq_true,
      decide_eq_true_eq] at h
    omega

/-- Claim C7 amended witness: at the date 2024-04-15 with bounds 15/15 the
filter returns false and the day equals the clamped bound. -/
theorem C7_amended_witness :
    (⟨2024, 4, 15⟩ : NDate).day = min 15 (last_date_in_month ⟨2024, 4, 15⟩) :=
  C7_amended ⟨2024, 4, 15⟩ 15 (by decide)

/-! ## Claim C4 -/

theorem skipme_not_iff (t : NormalizedBankData) (s e : NDate) :
    ((!t.skipme s e) = true) ↔
      (t.amount ≠ 0 ∧ NDate.leSpec s t.date ∧ NDate.leSpec t.date e) := by
  simp only [NormalizedBankData.skipme, Bool.not_eq_true', Bool.or_eq_false_iff,
    beq_eq_false_iff_ne, ne_eq, ltB_false_iff]
  tauto

/-- Claim C4: for every transaction batch and every start and end date, the
prune step retains exactly the transactions with amount ≠ 0 and
start ≤ date ≤ end (calendar order), dropping all others — in particular a
zero-amount transaction is dropped regardless of its date. -/
theorem C4_prune (l : List NormalizedBankData) (s e : NDate) :
    drop_uneeded l s e =
      l.filter (fun t =>
        decide (t.amount ≠ 0 ∧ NDate.leSpec s t.date ∧ NDate.leSpec t.date e)) := by
  unfold drop_uneeded
  apply List.filter_congr
  intro t _
  exact bool_eq_decide _ _ (skipme_not_iff t s e)

/-! ## Claim C5 -/

theorem datesGet_insert_self (dates : List (String × NDate)) (a : String) (d : NDate) :
    datesGet (datesInsert dates a d) a = some d := by
  induction dates with
  | nil => simp [datesInsert, datesGet]
  | cons hd rest ih =>
    rcases hd with ⟨k, v⟩
    by_cases hk : k = a
    · simp [datesInsert, datesGet, hk]
    · simpa [datesInsert, datesGet, hk] using ih

theorem get_date_update (keeper : TimestampKeeper) (a : String) (d : NDate) :
    (keeper.update_date a d).get_date a =
      if NDate.ltB (keeper.get_date a) d then d else keeper.get_date a := by
  unfold TimestampKeeper.update_date TimestampKeeper.get_date
  by_cases hlt : NDate.ltB ((datesGet keeper.dates a).getD TimestampKeeper.early) d
  · simp [hlt, datesGet_insert_self]
  · simp [hlt, datesGet_insert_self]

theorem ndate_le_antisymm (a b : NDate) (hle : NDate.leSpec a b)
    (hnlt : NDate.ltB a b = false) : a = b := by
  rw [← Bool.not_eq_true, ltB_iff] at hnlt
  unfold NDate.leSpec at hle
  rcases a with ⟨ya, ma, da⟩
  rcases b with ⟨yb, mb, db⟩
  simp only [NDate.mk.injEq]
  simp only at hle hnlt
  omega

/-- Claim C5 counterexample: on a keeper with no entry for the account, two
advances with 1999-01-01 then 1998-01-01 leave the watermark at the epoch
sentinel 2000-01-01, not at d1 = 1999-01-01 — `update_date` default-inserts
the epoch and never moves backwards from it. -/
theorem C5_counterexample :
    NDate.ltB ⟨1998, 1, 1⟩ ⟨1999, 1, 1⟩ = true ∧
      (((⟨[]⟩ : TimestampKeeper).update_date "visa" ⟨1999, 1, 1⟩).update_date
          "visa" ⟨1998, 1, 1⟩).get_date "visa" = ⟨2000, 1, 1⟩ ∧
      ((⟨2000, 1, 1⟩ : NDate) ≠ ⟨1999, 1, 1⟩) := by
  refine ⟨rfl, rfl, by decide⟩

/-- Claim C5 (amended): `advance` sets the stored watermark to the maximum
of its current value (the epoch default for an unseen account) and the
candidate date — it changes it only to a strictly greater date, never
regressing; consequently `advance(account, d1)` then `advance(account, d2)`
with d2 < d1 leaves the watermark at d1 provided the watermark stored before
the first call was at most d1. -/
theorem C5_amended :
    (∀ (keeper : TimestampKeeper) (a : String) (d : NDate),
        (keeper.update_date a d).get_date a =
          if NDate.ltB (keeper.get_date a) d then d else keeper.get_date a) ∧
    (∀ (keeper : TimestampKeeper) (a : String) (d1 d2 : NDate),
        NDate.ltB d2 d1 = true → NDate.leSpec (keeper.get_date a) d1 →
        ((keeper.update_date a d1).update_date a d2).get_date a = d1) := by
  refine ⟨get_date_update, ?_⟩
  intro keeper a d1 d2 h21 hle
  have h1 : (keeper.update_date a d1).get_date a = d1 := by
    rw [get_date_update]
    by_cases hlt : NDate.ltB (keeper.get_date a) d1
    · simp [hlt]
    · simp only [hlt, if_false]
      exact ndate_le_antisymm _ _ hle (by simpa using hlt)
  rw [get_date_update, h1]
  have h12 : NDate.ltB d1 d2 = false := by
    rw [← Bool.not_eq_true, ltB_iff]
    rw [ltB_iff] at h21
    omega
  simp [h12]

/-- Claim C5 amended witness: with an empty keeper, advancing "visa" to
2024-05-07 and then 2024-02-29 leaves the watermark at 2024-05-07. -/
theorem C5_amended_witness :
    (((⟨[]⟩ : TimestampKeeper).update_date "visa" ⟨2024, 5, 7⟩).update_date
        "visa" ⟨2024, 2, 29⟩).get_date "visa" = ⟨2024, 5, 7⟩ :=
  C5_amended.2 ⟨[]⟩ "visa" ⟨2024, 5, 7⟩ ⟨2024, 2, 29⟩ (by decide) (by decide)

/-! ## Claim C1 -/

/-- Whether some candidate rule of one payee name matches the transaction. -/
def anyPayeeCandidateMatches (candidates : List PayeeRulesO)
    (t : NormalizedBankData) : Bool :=
  candidates.any (fun c => c.transaction_matches t)

/-- The owning key of the last name in the payee table's iteration order
that has a matching candidate, if any. -/
def lastMatchingPayee (payees : List (String × List PayeeRulesO))
    (t : NormalizedBankData) : Option String :=
  ((payees.filter (fun p => anyPayeeCandidateMatches p.2 t)).getLast?).map (·.1)

/-- Whether some candidate rule of one memo name matches the transaction. -/
def anyMemoCandidateMatches (candidates : List CategoryAndMemoRulesO)
    (t : NormalizedBankData) : Bool :=
  candidates.any (fun c => c.transaction_matches t)

/-- The owning key of the last name in the memo table's iteration order that
has a matching candidate, if any. -/
def lastMatchingMemo (memos : List (String × List CategoryAndMemoRulesO))
    (t : NormalizedBankData) : Option String :=
  ((memos.filter (fun p => anyMemoCandidateMatches p.2 t)).getLast?).map (·.1)

theorem updatePayeeCandidates_eq (payee : String) (candidates : List PayeeRulesO)
    (t : NormalizedBankData) :
    updatePayeeCandidates payee candidates t =
      if anyPayeeCandidateMatches candidates t then { t with payee := payee }
      else t := by
  induction candidates with
  | nil => simp [updatePayeeCandidates, anyPayeeCandidateMatches]
  | cons c rest ih =>
    by_cases hc : c.transaction_matches t
    · simp [updatePayeeCandidates, anyPayeeCandidateMatches, hc]
    · simp only [updatePayeeCandidates, hc, if_false, ih]
      simp [anyPayeeCandidateMatches, hc]

theorem updatePayeeTable_eq (payees : List (String × List PayeeRulesO))
    (t : NormalizedBankData) :
    updatePayeeTable payees t =
      match lastMatchingPayee payees t with
      | some n => { t with payee := n }
      | none => t := by
  induction payees generalizing t with
  | nil => rfl
  | cons hd rest ih =>
    rcases hd with ⟨name, candidates⟩
    rw [updatePayeeTable, updatePayeeCandidates_eq]
    by_cases h : anyPayeeCandidateMatches candidates t
    · rw [if_pos h, ih]
      -- the payee matcher never reads the payee field, so the tail behaves
      -- the same on the updated transaction
      have hinv : lastMatchingPayee rest { t with payee := name } =
          lastMatchingPayee rest t := rfl
      rw [hinv]
      unfold lastMatchingPayee
      rw [List.filter_cons_of_pos (by simpa using h)]
      cases hl : (rest.filter (fun p => anyPayeeCandidateMatches p.2 t)).getLast? with
      | some q => simp [List.getLast?_cons, hl]
      | none =>
        have : rest.filter (fun p => anyPayeeCandidateMatches p.2 t) = [] := by
          simpa [List.getLast?_eq_none_iff] using hl
        simp [List.getLast?_cons, hl, this]

    · rw [if_neg h, ih]
      unfold lastMatchingPayee
      rw [List.filter_cons_of_neg (by simpa using h)]

theorem updateMemoCandidates_eq (memo : String)
    (candidates : List CategoryAndMemoRulesO) (t : NormalizedBankData) :
    updateMemoCandidates memo candidates t =
      if anyMemoCandidateMatches candidates t then { t with memo := some memo }
      else t := by
  induction candidates with
  | nil => simp [updateMemoCandidates, anyMemoCandidateMatches]
  | cons c rest ih =>
    by_cases hc : c.transaction_matches t
    · simp [updateMemoCandidates, anyMemoCandidateMatches, hc]
    · simp only [updateMemoCandidates, hc, if_false, ih]
      simp [anyMemoCandidateMatches, hc]

theorem updateMemoTable_eq (memos : List (String × List CategoryAndMemoRulesO))
    (t : NormalizedBankData) :
    updateMemoTable memos t =
      match lastMatchingMemo memos t with
      | some n => { t with memo := some n }
      | none => t := by
  induction memos generalizing t with
  | nil => rfl
  | cons hd rest ih =>
    rcases hd with ⟨name, candidates⟩
    rw [updateMemoTable, updateMemoCandidates_eq]
    by_cases h : anyMemoCandidateMatches candidates t
    · rw [if_pos h, ih]
      -- the category/memo matcher never reads the memo field
      have hinv : lastMatchingMemo rest { t with memo := some name } =
          lastMatchingMemo rest t := rfl
      rw [hinv]
      unfold lastMatchingMemo
      rw [List.filter_cons_of_pos (by simpa using h)]
      cases hl : (rest.filter (fun p => anyMemoCandidateMatches p.2 t)).getLast? with
      | some q => simp [List.getLast?_cons, hl]
      | none =>
        have : rest.filter (fun p => anyMemoCandidateMatches p.2 t) = [] := by
          simpa [List.getLast?_eq_none_iff] using hl
        simp [List.getLast?_cons, hl, this]
    · rw [if_neg h, ih]
      unfold lastMatchingMemo
      rw [List.filter_cons_of_neg (by simpa using h)]

/-- A payee rule used by the C1 counterexample whose pattern matches any
original payee (and no amount constraints), owned by the name "A". -/
def c1RuleA : PayeeRulesO := ⟨⟨"pat-a", fun _ => true⟩, none, none, none⟩

/-- A payee rule identical in effect, owned by the name "B". -/
def c1RuleB : PayeeRulesO := ⟨⟨"pat-b", fun _ => true⟩, none, none, none⟩

/-- The C1 counterexample transaction. -/
def c1Txn : NormalizedBankData :=
  ⟨⟨2024, 1, 15⟩, "ACME 123", none, none, -5, none, "ACME 123"⟩

/-- The C1 counterexample rule store: two payee names in iteration order
"A" then "B", each with one matching rule. -/
def c1Rules : RuleFileDataO := ⟨[("A", [c1RuleA]), ("B", [c1RuleB])], none, none⟩

/-- Claim C1 counterexample: with payee table iteration order "A" then "B"
and both names' rules matching the transaction, the rule owned by "A" is the
first matching rule, yet `update_payee` leaves the payee field at "B" — the
per-table evaluation does not stop after the first match; only the matched
name's remaining candidates are skipped. -/
theorem C1_counterexample :
    c1RuleA.transaction_matches c1Txn = true ∧
      (c1Rules.update_payee c1Txn).payee = "B" ∧ ("B" : String) ≠ "A" := by
  refine ⟨rfl, rfl, by decide⟩

/-- Claim C1 (amended): in each rule table, for each name in iteration order
the first matching candidate of that name sets the field (to the owning key)
and skips the rest of that name's candidate list, but iteration continues
over the remaining names of the table, whose matches overwrite the field.
For the payee and memo tables (whose matchers never read the field being
written) the final field value therefore comes from the last name in
iteration order that has a matching candidate, and the field is left
unchanged when no rule matches. -/
theorem C1_amended :
    (∀ (rules : RuleFileDataO) (t : NormalizedBankData),
        rules.update_payee t =
          match lastMatchingPayee rules.payees t with
          | some n => { t with payee := n }
          | none => t) ∧
    (∀ (memos : List (String × List CategoryAndMemoRulesO))
        (t : NormalizedBankData),
        RuleFileDataO.update_memo ⟨[], none, some memos⟩ t =
          match lastMatchingMemo memos t with
          | some n => { t with memo := some n }
          | none => t) := by
  constructor
  · intro rules t
    exact updatePayeeTable_eq rules.payees t
  · intro memos t
    exact updateMemoTable_eq memos t

/-! ## Claim C2 -/

/-- An early `return false` guarded by a boolean, as a boolean conjunction. -/
theorem ifBool_false (c b : Bool) : (if c = true then false else b) = (!c && b) := by
  cases c <;> simp

theorem payee_matches_abs_congr (rule : PayeeRules) (t : NormalizedBankData)
    (a b : ℚ) (h : |a| = |b|) :
    rule.transaction_matches { t with amount := a } =
      rule.transaction_matches { t with amount := b } := by
  unfold PayeeRules.transaction_matches
  dsimp only
  rw [h]

/-- Claim C2: a payee rule matches only if the absolute transaction amount
lies between the absolute min bound (default 0) and the absolute max bound
(default `Decimal::MAX`) inclusive, and, when the exact amount is set, only
if the absolute transaction amount equals its absolute value; in particular
a rule with max_amount = 20.00 matches a transaction of -15.43 exactly when
it matches one of +15.43. -/
theorem C2_payee_amount_semantics :
    (∀ (rule : PayeeRules) (t : NormalizedBankData),
        rule.transaction_matches t = true →
          |rule.min_amount.getD 0| ≤ |t.amount| ∧
          |t.amount| ≤ |rule.max_amount.getD DecimalMAX| ∧
          (∀ a, rule.amount = some a → |t.amount| = |a|)) ∧
    (∀ (rule : PayeeRules) (t : NormalizedBankData),
        rule.max_amount = some 20 →
          rule.transaction_matches { t with amount := -(mkRat 1543 100) } =
            rule.transaction_matches { t with amount := mkRat 1543 100 }) := by
  constructor
  · intro rule t h
    unfold PayeeRules.transaction_matches at h
    rw [ifBool_false, ifBool_false, ifBool_false, ifBool_false] at h
    simp only [Bool.and_eq_true, Bool.not_eq_true', Bool.not_eq_false',
      decide_eq_true_eq, ge_iff_le, and_true] at h
    obtain ⟨⟨hmin, hmax⟩, hamt, -, -⟩ := h
    refine ⟨hmin, hmax, ?_⟩
    intro a ha
    rw [ha] at hamt
    simp only [isSomeAnd, decide_eq_false_iff_not, not_ne_iff] at hamt
    exact hamt.symm
  · intro rule t _
    exact payee_matches_abs_congr rule t _ _ (by rw [abs_neg])

/-- The C2 witness rule: pattern "ACE" (matching everywhere) and
max_amount = 20.00, no other constraints. -/
def c2Rule : PayeeRules :=
  ⟨⟨"ACE", fun _ => true⟩, none, some 20, none, none, none, none, none⟩

/-- The C2 witness transaction: amount -15.43. -/
def c2Txn : NormalizedBankData :=
  ⟨⟨2024, 4, 3⟩, "ACE", none, none, -(mkRat 1543 100), none, "ACE"⟩

/-- Claim C2 witness: the semantics theorem applied to the concrete rule and
transaction above. -/
theorem C2_witness :
    (|c2Rule.min_amount.getD 0| ≤ |c2Txn.amount| ∧
      |c2Txn.amount| ≤ |c2Rule.max_amount.getD DecimalMAX| ∧
      (∀ a, c2Rule.amount = some a → |c2Txn.amount| = |a|)) ∧
    c2Rule.transaction_matches { c2Txn with amount := -(mkRat 1543 100) } =
      c2Rule.transaction_matches { c2Txn with amount := mkRat 1543 100 } :=
  ⟨C2_payee_amount_semantics.1 c2Rule c2Txn (by decide),
    C2_payee_amount_semantics.2 c2Rule c2Txn rfl⟩

/-! ## Claim C8 -/

/-- Claim C8: a category/memo rule whose income_ok field is false never
matches a transaction with strictly positive amount, and a rule definition
that omits the IncomeOK field gets income_ok = true from the serde
default. -/
theorem C8_income_ok :
    (∀ (rule : CategoryAndMemoRules) (t : NormalizedBankData),
        rule.income_ok = false → 0 < t.amount →
        rule.transaction_matches t = false) ∧
    (∀ raw : CategoryAndMemoRulesRaw, raw.income_ok = none →
        raw.applyDefaults.income_ok = true) := by
  constructor
  · intro rule t hio hpos
    unfold CategoryAndMemoRules.transaction_matches
    rw [ifBool_false, ifBool_false, ifBool_false, ifBool_false, ifBool_false,
      ifBool_false]
    have : (!rule.income_ok && decide (t.amount > 0)) = true := by
      simp [hio, hpos]
    simp [this]
  · intro raw hraw
    simp [CategoryAndMemoRulesRaw.applyDefaults, hraw, true_value]

/-- The C8 witness rule: income_ok = false and no other constraints. -/
def c8Rule : CategoryAndMemoRules := ⟨none, none, none, none, none, false, none⟩

/-- The C8 witness transaction, with a strictly positive amount 15.43. -/
def c8Txn : NormalizedBankData :=
  ⟨⟨2024, 4, 3⟩, "ACE", none, none, mkRat 1543 100, none, "ACE"⟩

/-- The C8 witness raw rule definition: IncomeOK absent. -/
def c8Raw : CategoryAndMemoRulesRaw :=
  ⟨some "ACE", none, none, none, none, none, none⟩

/-- Claim C8 witness: the theorem applied at the concrete rule, transaction,
and raw definition above. -/
theorem C8_witness :
    c8Rule.transaction_matches c8Txn = false ∧
      c8Raw.applyDefaults.income_ok = true :=
  ⟨C8_income_ok.1 c8Rule c8Txn rfl (by decide), C8_income_ok.2 c8Raw rfl⟩

/-! ## Claim C9 -/

/-- Claim C9: a raw Amount string that does not parse as a decimal does not
make transaction construction fail — provided the required Payee and Date
columns are present and the date parses, `from_raw_data` succeeds and the
amount is zero, whether or not the mapping's sign convention requires
negation. -/
theorem C9_unparseable_amount (mapping : List (String × String)) (negate : Bool)
    (label p ds s : String) (d : NDate)
    (hp : rowGet mapping "Payee" = some p)
    (hd : rowGet mapping "Date" = some ds)
    (hdp : parse_date_ymd ds = some d)
    (ha : rowGet mapping "Amount" = some s)
    (hparse : parseDecimal s = none) :
    ∃ t, NormalizedBankData.from_raw_data mapping negate label = .ok t ∧
      t.amount = 0 := by
  unfold NormalizedBankData.from_raw_data
  rw [hp, hd, ha]
  dsimp only
  rw [hdp]
  refine ⟨_, rfl, ?_⟩
  unfold interpret_dollar_amount
  rw [hparse]
  cases negate <;> simp

/-- The C9 witness raw row: its Amount column does not parse as a decimal. -/
def c9Row : List (String × String) :=
  [("Payee", "ACE"), ("Date", "2024-04-03"), ("Amount", "gandalf")]

/-- Claim C9 witness: construction from the concrete row succeeds with a
zero amount even under the negating sign convention. -/
theorem C9_witness :
    ∃ t, NormalizedBankData.from_raw_data c9Row true "testing" = .ok t ∧
      t.amount = 0 :=
  C9_unparseable_amount c9Row true "testing" "ACE" "2024-04-03" "gandalf"
    ⟨2024, 4, 3⟩ rfl rfl (by decide) rfl (by decide)

/-! ## Claim C10 -/

/-- Claim C10: a payees entry written in bare-string shorthand whose text is
not a valid regular expression (a failed `Regex::new`, here `compiled =
none`) makes `PayeeRules::from_str` panic with a message instead of
returning an error, while the struct-form path `deserialize_regex` turns the
same failed compile into an ordinary error result. -/
theorem C10_from_str_panics (s : String) :
    PayeeRules.from_str s none =
      .panicked ("Could not parse the string " ++ s ++
        " as a regular expression") ∧
    deserialize_regex s none = .error ("regex parse error: " ++ s) :=
  ⟨rfl, rfl⟩

/-! ## Claim C6 -/

theorem beqO_iff (a b : PayeeRulesO) :
    PayeeRulesO.beq a b = true ↔
      (a.pattern.source = b.pattern.source ∧ a.min_amount = b.min_amount ∧
        a.max_amount = b.max_amount ∧ a.amount = b.amount) := by
  simp [PayeeRulesO.beq, EqRegex.beq, Bool.and_eq_true, beq_iff_eq, and_assoc]

theorem beqO_comm (a b : PayeeRulesO) :
    PayeeRulesO.beq a b = PayeeRulesO.beq b a := by
  rcases h1 : PayeeRulesO.beq a b <;> rcases h2 : PayeeRulesO.beq b a <;> try rfl
  · obtain ⟨e1, e2, e3, e4⟩ := (beqO_iff b a).mp h2
    exact absurd ((beqO_iff a b).mpr ⟨e1.symm, e2.symm, e3.symm, e4.symm⟩)
      (by simp [h1])
  · obtain ⟨e1, e2, e3, e4⟩ := (beqO_iff a b).mp h1
    exact absurd ((beqO_iff b a).mpr ⟨e1.symm, e2.symm, e3.symm, e4.symm⟩)
      (by simp [h2])

theorem mem_payeePairs (payees : List (String × List PayeeRulesO)) (n : String)
    (l : List PayeeRulesO) (r : PayeeRulesO) (hl : (n, l) ∈ payees) (hr : r ∈ l) :
    (n, r) ∈ payeePairs payees := by
  unfold payeePairs
  exact List.mem_flatMap.mpr ⟨(n, l), hl, List.mem_map.mpr ⟨r, hr, rfl⟩⟩

theorem payeePairs_mem_inv (payees : List (String × List PayeeRulesO))
    (n : String) (r : PayeeRulesO) (h : (n, r) ∈ payeePairs payees) :
    ∃ l, (n, l) ∈ payees ∧ r ∈ l := by
  unfold payeePairs at h
  obtain ⟨⟨n', l⟩, hl, hmap⟩ := List.mem_flatMap.mp h
  obtain ⟨r', hr', heq⟩ := List.mem_map.mp hmap
  obtain ⟨rfl, rfl⟩ := Prod.mk.injEq .. |>.mp heq
  exact ⟨l, hl, hr'⟩

theorem checkLookup_none (check : List (PayeeRulesO × String)) (rule : PayeeRulesO)
    (h : checkLookup check rule = none) :
    ∀ c ∈ check, PayeeRulesO.beq c.1 rule = false := by
  intro c hc
  unfold checkLookup at h
  rw [Option.map_eq_none'] at h
  simpa using List.find?_eq_none.mp h c hc

theorem checkLookup_some (check : List (PayeeRulesO × String)) (rule : PayeeRulesO)
    (other : String) (h : checkLookup check rule = some other) :
    ∃ rs, (rs, other) ∈ check ∧ PayeeRulesO.beq rs rule = true := by
  unfold checkLookup at h
  rw [Option.map_eq_some'] at h
  obtain ⟨⟨rs, os⟩, hfind, hsnd⟩ := h
  cases hsnd
  exact ⟨rs, List.mem_of_find?_eq_some hfind, by simpa using List.find?_some hfind⟩

theorem validatePairs_ok_check (ps : List (String × PayeeRulesO))
    (check : List (PayeeRulesO × String))
    (h : validatePayeePairs ps check = .ok ()) :
    ∀ q ∈ ps, ∀ c ∈ check, PayeeRulesO.beq c.1 q.2 = false := by
  induction ps generalizing check with
  | nil => intro q hq; exact absurd hq (List.not_mem_nil q)
  | cons hd rest ih =>
    rcases hd with ⟨payee, rule⟩
    unfold validatePayeePairs at h
    cases hfind : checkLookup check rule with
    | some other =>
      rw [hfind] at h
      dsimp only at h
      split_ifs at h
    | none =>
      rw [hfind] at h
      intro q hq c hc
      rcases List.mem_cons.mp hq with rfl | hq'
      · exact checkLookup_none check rule hfind c hc
      · exact ih _ h q hq' c (List.mem_cons_of_mem _ hc)

theorem validatePairs_ok_pairwise (ps : List (String × PayeeRulesO))
    (check : List (PayeeRulesO × String))
    (h : validatePayeePairs ps check = .ok ()) :
    ps.Pairwise (fun q1 q2 => PayeeRulesO.beq q1.2 q2.2 = false) := by
  induction ps generalizing check with
  | nil => exact List.Pairwise.nil
  | cons hd rest ih =>
    rcases hd with ⟨payee, rule⟩
    unfold validatePayeePairs at h
    cases hfind : checkLookup check rule with
    | some other =>
      rw [hfind] at h
      dsimp only at h
      split_ifs at h
    | none =>
      rw [hfind] at h
      refine List.Pairwise.cons ?_ (ih _ h)
      intro q hq
      simpa using validatePairs_ok_check rest _ h q hq (rule, payee)
        (List.mem_cons_self _ _)

/-- A (name, rule) pair already seen by the uniqueness loop: either still in
the remaining pairs or recorded in the `check` map. -/
def pairInState (ps : List (String × PayeeRulesO))
    (check : List (PayeeRulesO × String)) (n : String) (r : PayeeRulesO) : Prop :=
  (r, n) ∈ check ∨ (n, r) ∈ ps

theorem pairInState_step (payee : String) (rule : PayeeRulesO)
    (rest : List (String × PayeeRulesO)) (check : List (PayeeRulesO × String))
    (n : String) (r : PayeeRulesO)
    (h : pairInState rest ((rule, payee) :: check) n r) :
    pairInState ((payee, rule) :: rest) check n r := by
  rcases h with hc | hp
  · rcases List.mem_cons.mp hc with heq | hc'
    · obtain ⟨rfl, rfl⟩ := Prod.mk.injEq .. |>.mp heq
      right
      exact List.mem_cons_self _ _
    · left
      exact hc'
  · right
    exact List.mem_cons_of_mem _ hp

theorem charListLt_asymm : ∀ (as bs : List Char),
    charListLt as bs = true → charListLt bs as = false
  | [], [] => by simp [charListLt]
  | [], _ :: _ => by simp [charListLt]
  | _ :: _, [] => by simp [charListLt]
  | a :: as, b :: bs => by
    simp only [charListLt]
    intro h
    by_cases h1 : a.toNat < b.toNat
    · rw [if_neg (by omega), if_pos h1]
    · rw [if_neg h1] at h
      by_cases h2 : b.toNat < a.toNat
      · rw [if_pos h2] at h
        exact absurd h (by simp)
      · rw [if_neg h2] at h
        rw [if_neg h2, if_neg h1]
        exact charListLt_asymm as bs h

theorem stringLt_asymm (a b : String) (h : stringLt a b = true) :
    stringLt b a = false :=
  charListLt_asymm a.data b.data h

theorem validatePairs_error_shape (ps : List (String × PayeeRulesO))
    (check : List (PayeeRulesO × String)) (m : String)
    (herr : validatePayeePairs ps check = .error m) :
    ∃ a b ra rb, m = dupMsg a b ∧ stringLt b a = false ∧ PayeeRulesO.beq ra rb = true ∧
      pairInState ps check a ra ∧ pairInState ps check b rb := by
  induction ps generalizing check with
  | nil => simp [validatePayeePairs] at herr
  | cons hd rest ih =>
    rcases hd with ⟨payee, rule⟩
    unfold validatePayeePairs at herr
    cases hfind : checkLookup check rule with
    | some other =>
      rw [hfind] at herr
      dsimp only at herr
      obtain ⟨rs, hmem, hbeq⟩ := checkLookup_some check rule other hfind
      cases hlt : stringLt other payee with
      | true =>
        rw [if_pos hlt] at herr
        refine ⟨other, payee, rs, rule, ?_, stringLt_asymm other payee hlt, hbeq,
          Or.inl hmem, Or.inr (List.mem_cons_self _ _)⟩
        simpa using herr.symm
      | false =>
        rw [if_neg (by simp [hlt])] at herr
        refine ⟨payee, other, rule, rs, ?_, hlt, by rw [beqO_comm]; exact hbeq,
          Or.inr (List.mem_cons_self _ _), Or.inl hmem⟩
        simpa using herr.symm
    | none =>
      rw [hfind] at herr
      obtain ⟨a, b, ra, rb, hm, hsort, hbeq, hina, hinb⟩ := ih _ herr
      exact ⟨a, b, ra, rb, hm, hsort, hbeq,
        pairInState_step payee rule rest check a ra hina,
        pairInState_step payee rule rest check b rb hinb⟩

theorem validatePairs_fails_of_dup (ps : List (String × PayeeRulesO))
    (check : List (PayeeRulesO × String)) (n1 n2 : String) (r1 r2 : PayeeRulesO)
    (h1 : (n1, r1) ∈ ps) (h2 : (n2, r2) ∈ ps) (hne : n1 ≠ n2)
    (hbeq : PayeeRulesO.beq r1 r2 = true) :
    ∃ m, validatePayeePairs ps check = .error m := by
  cases hres : validatePayeePairs ps check with
  | error m => exact ⟨m, rfl⟩
  | ok u =>
    cases u
    exfalso
    have hpw := validatePairs_ok_pairwise ps check hres
    have hsym : Symmetric
        (fun q1 q2 : String × PayeeRulesO => PayeeRulesO.beq q1.2 q2.2 = false) := by
      intro x y hxy
      rw [beqO_comm]
      exact hxy
    have hne' : (n1, r1) ≠ (n2, r2) := fun h => hne (congrArg Prod.fst h)
    have := hpw.forall hsym h1 h2 hne'
    rw [this] at hbeq
    exact absurd hbeq (by simp)

/-- Claim C6 (amended): if two payee names — not necessarily distinct table
entries — define field-for-field equal rules (regex patterns compared by
source text), validation fails with the duplicate-rule error; the error
message names the two payee names of the first duplicate encountered in
iteration order, lexicographically smaller first, and those two names both
define field-for-field equal rules — they need not be the quantified pair
when the table holds another duplicate earlier in iteration order, and they
coincide when a single name lists the same rule twice. -/
theorem C6_amended (rules : RuleFileDataO) (n1 n2 : String)
    (l1 l2 : List PayeeRulesO) (r1 r2 : PayeeRulesO)
    (hmem1 : (n1, l1) ∈ rules.payees) (hmem2 : (n2, l2) ∈ rules.payees)
    (hr1 : r1 ∈ l1) (hr2 : r2 ∈ l2) (hne : n1 ≠ n2)
    (heq : PayeeRulesO.beq r1 r2 = true) :
    ∃ a b ra rb la lb,
      rules.validate (.ok ()) = .error (dupMsg a b) ∧ stringLt b a = false ∧
      (a, la) ∈ rules.payees ∧ ra ∈ la ∧ (b, lb) ∈ rules.payees ∧ rb ∈ lb ∧
      PayeeRulesO.beq ra rb = true := by
  have hp1 : (n1, r1) ∈ payeePairs rules.payees :=
    mem_payeePairs rules.payees n1 l1 r1 hmem1 hr1
  have hp2 : (n2, r2) ∈ payeePairs rules.payees :=
    mem_payeePairs rules.payees n2 l2 r2 hmem2 hr2
  obtain ⟨m, hm⟩ :=
    validatePairs_fails_of_dup (payeePairs rules.payees) [] n1 n2 r1 r2 hp1 hp2
      hne heq
  obtain ⟨a, b, ra, rb, hmsg, hsort, hbeq, hina, hinb⟩ :=
    validatePairs_error_shape (payeePairs rules.payees) [] m hm
  have hina' : (a, ra) ∈ payeePairs rules.payees := by
    rcases hina with h | h
    · exact absurd h (List.not_mem_nil _)
    · exact h
  have hinb' : (b, rb) ∈ payeePairs rules.payees := by
    rcases hinb with h | h
    · exact absurd h (List.not_mem_nil _)
    · exact h
  obtain ⟨la, hla, hrla⟩ := payeePairs_mem_inv rules.payees a ra hina'
  obtain ⟨lb, hlb, hrlb⟩ := payeePairs_mem_inv rules.payees b rb hinb'
  refine ⟨a, b, ra, rb, la, lb, ?_, hsort, hla, hrla, hlb, hrlb, hbeq⟩
  unfold RuleFileDataO.validate
  rw [hm, hmsg]

/-- The duplicated rule of the C6 witness (pattern "PAYPAL",
MinAmount -50.00), defined under both "Microsoft" and "Apple". -/
def c6Dup : PayeeRulesO :=
  ⟨⟨"PAYPAL", fun _ => true⟩, some (-(mkRat 5000 100)), none, none⟩

/-- A non-duplicated rule of the C6 witness. -/
def c6Ms : PayeeRulesO := ⟨⟨"MICROSOFT", fun _ => true⟩, none, none, none⟩

/-- The C6 witness rule store, iteration order "Microsoft" then "Apple". -/
def c6Rules : RuleFileDataO :=
  ⟨[("Microsoft", [c6Ms, c6Dup]), ("Apple", [c6Dup])], none, none⟩

/-- Claim C6 amended witness: the amended theorem applied to the concrete
store above, in which "Microsoft" and "Apple" both define `c6Dup`. -/
theorem C6_amended_witness :
    ∃ a b ra rb la lb,
      c6Rules.validate (.ok ()) = .error (dupMsg a b) ∧ stringLt b a = false ∧
      (a, la) ∈ c6Rules.payees ∧ ra ∈ la ∧ (b, lb) ∈ c6Rules.payees ∧ rb ∈ lb ∧
      PayeeRulesO.beq ra rb = true :=
  C6_amended c6Rules "Microsoft" "Apple" [c6Ms, c6Dup] [c6Dup] c6Dup c6Dup
    (List.mem_cons_self _ _)
    (List.mem_cons_of_mem _ (List.mem_cons_self _ _))
    (List.mem_cons_of_mem _ (List.mem_cons_self _ _))
    (List.mem_cons_self _ _)
    (by decide) rfl

/-- A rule duplicated inside a single name's list for the C6
counterexample. -/
def c6r : PayeeRulesO := ⟨⟨"X", fun _ => true⟩, none, none, none⟩

/-- A rule duplicated across the two distinct names "B" and "C" of the C6
counterexample. -/
def c6r2 : PayeeRulesO := ⟨⟨"Y", fun _ => true⟩, none, none, none⟩

/-- The C6 counterexample payee table: "A" lists the same rule twice, and
the distinct names "B" and "C" define identical rules. -/
def c6CtexPayees : List (String × List PayeeRulesO) :=
  [("A", [c6r, c6r]), ("B", [c6r2]), ("C", [c6r2])]

/-- Claim C6 counterexample: the table contains two distinct payee names
("B" and "C") defining field-for-field identical rules, so the claim applies
to it, yet validation's error message is about "A" and "A" (the first
duplicate in iteration order, inside one name's list) — it does not name
"B" and "C", and the two names it reports are not distinct. -/
theorem C6_counterexample :
    (("B", [c6r2]) ∈ c6CtexPayees ∧ ("C", [c6r2]) ∈ c6CtexPayees ∧
      ("B" : String) ≠ "C" ∧ PayeeRulesO.beq c6r2 c6r2 = true) ∧
    (⟨c6CtexPayees, none, none⟩ : RuleFileDataO).validate (.ok ()) =
      .error (dupMsg "A" "A") ∧
    dupMsg "A" "A" ≠ dupMsg "B" "C" := by
  refine ⟨⟨?_, ?_, by decide, rfl⟩, rfl, by decide⟩
  · exact List.mem_cons_of_mem _ (List.mem_cons_self _ _)
  · exact List.mem_cons_of_mem _ (List.mem_cons_of_mem _ (List.mem_cons_self _ _))

end Tidymoney
